import Mathlib

/-!
Verification of the Rikiki game engine (`game.py`, `models.py`).

The Python source is shallowly embedded: every pure computation becomes a
Lean function, object mutation becomes explicit state passing on a `Room`
record, and every operation that can `raise ValueError` returns
`Except String _` (the string is the Python exception message).  Python's
`random.Random(seed).shuffle` / `random.shuffle` are modelled by an explicit
`shuffle : List Card → List Card` parameter: the library shuffle is a
deterministic function of the seed and always permutes its input, so theorems
that depend on it carry a permutation hypothesis.  Card `id` strings (uuids)
and the wall-clock `reveal_until` timestamp are not modelled: no verified
property depends on them, and the spec marks `reveal_until` as cosmetic.
Hand positions arrive as Python ints; a negative index fails the same bounds
check as a too-large one, so positions are embedded as `Nat`.
-/

/-! ## models.py -/

inductive Suit where
  | hearts
  | diamonds
  | clubs
  | spades
deriving DecidableEq, Repr

inductive Rank where
  | ace
  | two
  | three
  | four
  | five
  | six
  | seven
  | eight
  | nine
  | ten
  | jack
  | queen
  | king
deriving DecidableEq, Repr

/-- `RANK_VALUES` from `models.py`. -/
def RANK_VALUES : Rank → Nat
  | .ace => 1
  | .two => 2
  | .three => 3
  | .four => 4
  | .five => 5
  | .six => 6
  | .seven => 7
  | .eight => 8
  | .nine => 9
  | .ten => 10
  | .jack => 10
  | .queen => 10
  | .king => 10

/-- `Card` from `models.py`, without the uuid `id` field (never inspected by
the game logic). -/
structure Card where
  rank : Rank
  suit : Suit
  is_red_king : Bool
deriving DecidableEq, Repr

/-- `Card.value` from `models.py`. -/
def Card.value (c : Card) : Nat :=
  if c.is_red_king then 0 else RANK_VALUES c.rank

inductive GameState where
  | lobby
  | playing
  | last_round
  | ended
deriving DecidableEq, Repr

/-- `ActionLog` from `models.py`; the free-form `details` dict (card uuids,
positions...) is not modelled, only who logged what action. -/
structure ActionLog where
  player_id : String
  action : String
deriving DecidableEq, Repr

/-! ## game.py : deck building -/

def GRID_SIZE : Nat := 4

def CALLER_AUTO_LOSE_SCORE : Nat := 7

/-- Iteration order of `for suit in Suit` in `models.py`. -/
def allSuits : List Suit := [.hearts, .diamonds, .clubs, .spades]

/-- Iteration order of `for rank in Rank` in `models.py`. -/
def allRanks : List Rank :=
  [.ace, .two, .three, .four, .five, .six, .seven, .eight, .nine, .ten,
   .jack, .queen, .king]

/-- One pass of the inner loops of `build_deck`: 52 cards in suit-major
order, with `is_red_king` exactly as computed in `game.py` line 17. -/
def singleDeck : List Card :=
  allSuits.flatMap fun s =>
    allRanks.map fun r =>
      { rank := r
        suit := s
        is_red_king := r == Rank.king && (s == Suit.hearts || s == Suit.diamonds) }

/-- The 104 cards appended by `build_deck` before shuffling
(`for _ in range(2)` around the suit/rank loops). -/
def baseDeck : List Card := singleDeck ++ singleDeck

/-- `build_deck` from `game.py`.  `rng.shuffle` is modelled by the explicit
`shuffle` argument: `random.Random(seed)` is a deterministic function of the
seed, and an in-place shuffle always permutes the list. -/
def build_deck (shuffle : List Card → List Card) : List Card :=
  shuffle baseDeck

/-! ## game.py : Player -/

/-- `Player` from `game.py`. -/
structure Player where
  id : String
  name : String
  hand : List (Option Card)
  connected : Bool
  called_rikiki : Bool
  done_last_turn : Bool
deriving DecidableEq, Repr

/-- `Player.__init__`. -/
def Player.make (player_id name : String) : Player :=
  { id := player_id
    name := name
    hand := List.replicate GRID_SIZE none
    connected := true
    called_rikiki := false
    done_last_turn := false }

/-- `Player.score`. -/
def Player.score (p : Player) : Nat :=
  (p.hand.filterMap (fun c => c)).foldr (fun c acc => c.value + acc) 0

/-! ## game.py : GameRoom state -/

/-- The `pending_special` dict, as the tagged sum it encodes: either a drawn
card waiting to be resolved, or the intermediate state of the two-phase King
action.  Field order follows the dict keys in `game.py`. -/
inductive Pending where
  | drawn (player_id : String) (card : Card)
  | king_peek (player_id : String) (card : Card) (peeked_player_id : String)
      (peeked_position : Nat) (peeked_card : Option Card)
deriving DecidableEq, Repr

/-- Mutable state of `GameRoom` (the `reveal_until` timestamp is cosmetic and
not modelled). -/
structure Room where
  room_code : String
  players : List Player
  deck : List Card
  discard_pile : List Card
  state : GameState
  turn_index : Nat
  rikiki_called_by : Option String
  last_round_remaining : List String
  action_log : List ActionLog
  pending_special : Option Pending
deriving DecidableEq, Repr

/-- `GameRoom.__init__` (the stored `seed` only feeds `build_deck`, which is
modelled by the shuffle argument of `start_game`). -/
def initRoom (room_code : String) : Room :=
  { room_code := room_code
    players := []
    deck := []
    discard_pile := []
    state := .lobby
    turn_index := 0
    rikiki_called_by := none
    last_round_remaining := []
    action_log := []
    pending_special := none }

/-- `GameRoom.current_player`. -/
def Room.current_player (st : Room) : Option Player :=
  if st.players.isEmpty then none
  else st.players.get? (st.turn_index % st.players.length)

/-- `GameRoom.get_player`: first player with the given id. -/
def Room.get_player (st : Room) (player_id : String) : Option Player :=
  st.players.find? (fun p => p.id == player_id)

/-- Mutation of the `Player` object returned by `get_player`: rewrite the
first list entry with the given id. -/
def updatePlayer (players : List Player) (pid : String) (f : Player → Player) :
    List Player :=
  match players with
  | [] => []
  | p :: rest =>
    if p.id == pid then f p :: rest else p :: updatePlayer rest pid f

/-- `GameRoom._log` (details dict dropped, see `ActionLog`). -/
def Room.log (st : Room) (player_id action : String) : Room :=
  { st with action_log := st.action_log ++ [{ player_id := player_id, action := action }] }

/-- `GameRoom.add_player`. -/
def Room.add_player (st : Room) (player_id name : String) : Except String Room :=
  if st.state != .lobby then .error "Game already started"
  else if 8 ≤ st.players.length then .error "Room full"
  else
    match st.get_player player_id with
    | some _ =>
      .ok { st with
              players := updatePlayer st.players player_id
                (fun p => { p with connected := true }) }
    | none => .ok { st with players := st.players ++ [Player.make player_id name] }

/-- The body of the dealing loop of `start_game`: pop `k` cards off the end
of the deck into a fresh hand, appending `none` once the deck is empty. -/
def dealHand : List Card → Nat → List Card × List (Option Card)
  | deck, 0 => (deck, [])
  | deck, k + 1 =>
    match deck.getLast? with
    | some c =>
      let r := dealHand deck.dropLast k
      (r.1, some c :: r.2)
    | none =>
      let r := dealHand deck k
      (r.1, none :: r.2)

/-- The outer dealing loop of `start_game`: each player in order gets a
fresh `GRID_SIZE`-card hand and reset per-round flags. -/
def dealAll : List Card → List Player → List Card × List Player
  | deck, [] => (deck, [])
  | deck, p :: rest =>
    let r1 := dealHand deck GRID_SIZE
    let r2 := dealAll r1.1 rest
    (r2.1, { p with
              hand := r1.2
              called_rikiki := false
              done_last_turn := false } :: r2.2)

/-- `self.players[0].id` in the `game_started` log line (guarded by the
player-count check). -/
def firstPlayerId (players : List Player) : String :=
  match players with
  | p :: _ => p.id
  | [] => ""

/-- `GameRoom.start_game`.  Note, as in the source: no phase guard, and
`last_round_remaining` is not reset. -/
def Room.start_game (st : Room) (shuffle : List Card → List Card) :
    Except String Room :=
  if st.players.length < 2 then .error "Need at least 2 players"
  else
    let r := dealAll (build_deck shuffle) st.players
    .ok { st with
            deck := r.1
            players := r.2
            discard_pile := []
            state := .playing
            turn_index := 0
            rikiki_called_by := none
            pending_special := none
            action_log := st.action_log ++
              [{ player_id := firstPlayerId st.players, action := "game_started" }] }

/-- `GameRoom._validate_turn`. -/
def Room.validate_turn (st : Room) (player_id : String) : Except String Player :=
  match st.get_player player_id with
  | none => .error "Player not found"
  | some player =>
    if st.state != .playing && st.state != .last_round then
      .error "Game not in playing state"
    else
      match st.current_player with
      | some cp => if cp.id != player_id then .error "Not your turn" else .ok player
      | none => .ok player

/-- The scan of `GameRoom._advance_turn`: step `fuel` times through
`(i+1) % len(players)`, stopping at the first connected seat. -/
def nextConnGo (players : List Player) : Nat → Nat → Nat
  | 0, i => i
  | fuel + 1, i =>
    let j := (i + 1) % players.length
    match players.get? j with
    | some p => if p.connected then j else nextConnGo players fuel j
    | none => j

/-- Resulting `turn_index` of the scan in `_advance_turn` (`for _ in
range(n)` with `n = len(players)`; Python would divide by zero on an empty
room, which no caller reaches). -/
def nextConnectedIndex (players : List Player) (i : Nat) : Nat :=
  nextConnGo players players.length i

/-- `GameRoom.end_game`'s `caller` lookup (line 382). -/
def Room.callerPlayer (st : Room) : Option Player :=
  match st.rikiki_called_by with
  | some cid => st.get_player cid
  | none => none

/-- Python's `min(players, key=lambda p: p.score(), default=None)`: the
first player attaining the minimal score (later ties do not replace). -/
def minByScore : List Player → Option Player
  | [] => none
  | p :: rest =>
    match minByScore rest with
    | none => some p
    | some q => if q.score < p.score then some q else some p

/-- The result dict of `end_game` (per-player score report dropped: it is a
rendering of data already in the room). -/
structure EndResult where
  winner_id : Option String
  caller_id : Option String
  caller_auto_lose : Bool
deriving DecidableEq, Repr

/-- `GameRoom.end_game`. -/
def Room.end_game (st : Room) : Room × EndResult :=
  let st0 := { st with state := .ended }
  let caller_auto_lose :=
    match st0.callerPlayer with
    | some c => decide (CALLER_AUTO_LOSE_SCORE < c.score)
    | none => false
  let winner :=
    if caller_auto_lose then
      minByScore (st0.players.filter (fun p => !p.called_rikiki))
    else minByScore st0.players
  (st0.log "system" "game_ended",
   { winner_id := winner.map Player.id
     caller_id := st0.rikiki_called_by
     caller_auto_lose := caller_auto_lose })

/-- First half of the `LastRound` branch of `_advance_turn`: drop the
current player's id from `last_round_remaining` when it is listed. -/
def Room.eraseStep (st : Room) : Room :=
  match st.current_player with
  | some cp =>
    if st.last_round_remaining.contains cp.id then
      { st with last_round_remaining := st.last_round_remaining.erase cp.id }
    else st
  | none => st

/-- `GameRoom._advance_turn` (the `force` parameter is dead in the source
and therefore not modelled). -/
def Room.advance_turn (st : Room) : Room :=
  if st.state = .last_round then
    let st1 := st.eraseStep
    if st1.last_round_remaining.isEmpty then (st1.end_game).1
    else { st1 with turn_index := nextConnectedIndex st1.players st1.turn_index }
  else { st with turn_index := nextConnectedIndex st.players st.turn_index }

/-- Result of `draw_card` (the dict also echoes `card.rank`). -/
structure DrawResult where
  card : Card
  is_special : Bool
deriving DecidableEq, Repr

/-- `GameRoom.draw_card`.  `random.shuffle` on the reshuffled discard pile is
the explicit `reshuffle` argument; as in the source there is no
`pending_special` check.  The final `none` branch mirrors the `IndexError`
Python would raise popping an empty list; it is unreachable whenever
`reshuffle` permutes. -/
def Room.draw_card (st : Room) (reshuffle : List Card → List Card)
    (player_id : String) : Except String (Room × DrawResult) :=
  match st.validate_turn player_id with
  | .error e => .error e
  | .ok _ =>
    let st1? : Except String Room :=
      if st.deck.isEmpty then
        if st.discard_pile.isEmpty then .error "No cards left"
        else .ok { st with
                     deck := reshuffle st.discard_pile
                     discard_pile := [] }
      else .ok st
    match st1? with
    | .error e => .error e
    | .ok st1 =>
      match st1.deck.getLast? with
      | none => .error "No cards left"
      | some card =>
        let st2 := { st1 with deck := st1.deck.dropLast }
        let st3 := st2.log player_id "draw_card"
        .ok ({ st3 with pending_special := some (.drawn player_id card) },
             { card := card
               is_special := card.rank == .jack || card.rank == .queen || card.rank == .king })

/-- `GameRoom.attempt_discard`.  `hand.get? position` distinguishes the
out-of-bounds check (`Invalid position`) from the empty-slot check
(`No card at position`), in source order. -/
def Room.attempt_discard (st : Room) (player_id : String) (position : Nat) :
    Except String (Room × Bool) :=
  match st.validate_turn player_id with
  | .error e => .error e
  | .ok player =>
    match st.pending_special with
    | some (.drawn _ drawn_card) =>
      match player.hand.get? position with
      | none => .error "Invalid position"
      | some none => .error "No card at position"
      | some (some hand_card) =>
        if drawn_card.rank = hand_card.rank then
          let st1 := { st with
            discard_pile := st.discard_pile ++ [drawn_card, hand_card]
            players := updatePlayer st.players player_id
              (fun p => { p with hand := p.hand.set position none })
            pending_special := none }
          .ok ((st1.log player_id "discard_success").advance_turn, true)
        else
          .ok (st.log player_id "discard_fail", false)
    | _ => .error "No card drawn yet"

/-- `GameRoom.replace_card`. -/
def Room.replace_card (st : Room) (player_id : String) (position : Nat) :
    Except String Room :=
  match st.validate_turn player_id with
  | .error e => .error e
  | .ok player =>
    match st.pending_special with
    | some (.drawn _ drawn_card) =>
      match player.hand.get? position with
      | none => .error "Invalid position"
      | some none => .error "No card at position"
      | some (some current_card) =>
        let st1 := { st with
          players := updatePlayer st.players player_id
            (fun p => { p with hand := p.hand.set position (some drawn_card) })
          discard_pile := st.discard_pile ++ [current_card]
          pending_special := none }
        .ok (st1.log player_id "replace_card").advance_turn
    | _ => .error "No card drawn yet"

def KEEP_ADDS_TO_HAND : Bool := false

/-- `GameRoom.keep_card`. -/
def Room.keep_card (st : Room) (player_id : String) : Except String Room :=
  match st.validate_turn player_id with
  | .error e => .error e
  | .ok _ =>
    match st.pending_special with
    | some (.drawn _ drawn_card) =>
      let st1 :=
        if KEEP_ADDS_TO_HAND then
          { st with
              players := updatePlayer st.players player_id
                (fun p => { p with hand := p.hand ++ [some drawn_card] }) }
        else { st with discard_pile := st.discard_pile ++ [drawn_card] }
      let st2 := { st1 with pending_special := none }
      .ok (st2.log player_id "keep_card").advance_turn
    | _ => .error "No card drawn yet"

/-- `GameRoom.use_jack`.  An empty target slot is not rejected: `peeked_card`
is simply `None` in the result. -/
def Room.use_jack (st : Room) (player_id target_player_id : String)
    (position : Nat) : Except String (Room × Option Card) :=
  match st.validate_turn player_id with
  | .error e => .error e
  | .ok _ =>
    match st.pending_special with
    | some (.drawn _ drawn_card) =>
      if drawn_card.rank ≠ .jack then .error "Drawn card is not a Jack"
      else
        match st.get_player target_player_id with
        | none => .error "Target player not found"
        | some target =>
          match target.hand.get? position with
          | none => .error "Invalid position"
          | some peeked_card =>
            let st1 := { st with
                           discard_pile := st.discard_pile ++ [drawn_card]
                           pending_special := none }
            .ok ((st1.log player_id "use_jack").advance_turn, peeked_card)
    | _ => .error "No card drawn yet"

/-- `GameRoom.use_queen`. -/
def Room.use_queen (st : Room) (player_id player_a_id : String) (pos_a : Nat)
    (player_b_id : String) (pos_b : Nat) : Except String Room :=
  match st.validate_turn player_id with
  | .error e => .error e
  | .ok _ =>
    match st.pending_special with
    | some (.drawn _ drawn_card) =>
      if drawn_card.rank ≠ .queen then .error "Drawn card is not a Queen"
      else if player_a_id = player_b_id then .error "Must swap between different players"
      else
        match st.get_player player_a_id, st.get_player player_b_id with
        | some pa, some pb =>
          match pa.hand.get? pos_a with
          | none => .error "Invalid position A"
          | some va =>
            match pb.hand.get? pos_b with
            | none => .error "Invalid position B"
            | some vb =>
              let players1 := updatePlayer st.players player_a_id
                (fun p => { p with hand := p.hand.set pos_a vb })
              let players2 := updatePlayer players1 player_b_id
                (fun p => { p with hand := p.hand.set pos_b va })
              let st1 := { st with
                             players := players2
                             discard_pile := st.discard_pile ++ [drawn_card]
                             pending_special := none }
              .ok (st1.log player_id "use_queen").advance_turn
        | _, _ => .error "Player not found"
    | _ => .error "No card drawn yet"

/-- `GameRoom.use_king_peek`.  An empty slot is stored as
`peeked_card = none`; the turn does not advance. -/
def Room.use_king_peek (st : Room) (player_id target_player_id : String)
    (position : Nat) : Except String (Room × Option Card) :=
  match st.validate_turn player_id with
  | .error e => .error e
  | .ok _ =>
    match st.pending_special with
    | some (.drawn _ drawn_card) =>
      if drawn_card.rank ≠ .king then .error "Drawn card is not a King"
      else
        match st.get_player target_player_id with
        | none => .error "Target player not found"
        | some target =>
          match target.hand.get? position with
          | none => .error "Invalid position"
          | some peeked =>
            let st1 := { st with
              pending_special :=
                some (.king_peek player_id drawn_card target_player_id position peeked) }
            .ok (st1.log player_id "king_peek", peeked)
    | _ => .error "No card drawn yet"

/-- `GameRoom.use_king_swap`.  The two `"Peek state corrupted"` branches
mirror the `AttributeError`/`IndexError` Python would raise at the swap line
if the peeked player or position had vanished; both are caught by the
transport layer before any mutation, exactly like a validation failure. -/
def Room.use_king_swap (st : Room) (player_id other_player_id : String)
    (other_position : Nat) : Except String Room :=
  match st.validate_turn player_id with
  | .error e => .error e
  | .ok _ =>
    match st.pending_special with
    | some (.king_peek ps_pid drawn_card peeked_pid peeked_pos _) =>
      if ps_pid ≠ player_id then .error "Not your king action"
      else
        match st.get_player other_player_id with
        | none => .error "Other player not found"
        | some other_player =>
          if other_player_id = peeked_pid then .error "Must swap with a different player"
          else
            match other_player.hand.get? other_position with
            | none => .error "Invalid position"
            | some vb =>
              match st.get_player peeked_pid with
              | none => .error "Peek state corrupted"
              | some peeked_player =>
                match peeked_player.hand.get? peeked_pos with
                | none => .error "Peek state corrupted"
                | some va =>
                  let players1 := updatePlayer st.players peeked_pid
                    (fun p => { p with hand := p.hand.set peeked_pos vb })
                  let players2 := updatePlayer players1 other_player_id
                    (fun p => { p with hand := p.hand.set other_position va })
                  let st1 := { st with
                                 players := players2
                                 discard_pile := st.discard_pile ++ [drawn_card]
                                 pending_special := none }
                  .ok (st1.log player_id "king_swap").advance_turn
    | _ => .error "Must peek first with King"

/-- The list comprehension of `call_rikiki` (lines 369-371): the other
`n - 1` seats' ids in turn order starting right after seat `idx`. -/
def remainingIds (players : List Player) (idx : Nat) : List String :=
  (List.range (players.length - 1)).map
    (fun i => (((players.get? ((idx + i + 1) % players.length)).map Player.id).getD ""))

/-- `GameRoom.call_rikiki`. -/
def Room.call_rikiki (st : Room) (player_id : String) : Except String Room :=
  match st.validate_turn player_id with
  | .error e => .error e
  | .ok _ =>
    if st.state ≠ .playing then .error "Cannot call Rikiki now"
    else
      let idx := st.players.findIdx (fun p => p.id == player_id)
      let remaining := remainingIds st.players idx
      let st1 := { st with
        rikiki_called_by := some player_id
        players := updatePlayer st.players player_id
          (fun p => { p with
                        called_rikiki := true
                        done_last_turn := true })
        state := .last_round
        last_round_remaining := remaining }
      .ok (st1.log player_id "call_rikiki").advance_turn

/-! ## The room's operations as a labelled transition system -/

/-- One client intent, as dispatched in `main.py` to the `GameRoom` methods.
Shuffle functions stand for the library randomness used by the operation. -/
inductive Op where
  | add_player (player_id name : String)
  | start_game (shuffle : List Card → List Card)
  | draw_card (reshuffle : List Card → List Card) (player_id : String)
  | attempt_discard (player_id : String) (position : Nat)
  | replace_card (player_id : String) (position : Nat)
  | keep_card (player_id : String)
  | use_jack (player_id target_player_id : String) (position : Nat)
  | use_queen (player_id player_a_id : String) (pos_a : Nat) (player_b_id : String) (pos_b : Nat)
  | use_king_peek (player_id target_player_id : String) (position : Nat)
  | use_king_swap (player_id other_player_id : String) (other_position : Nat)
  | call_rikiki (player_id : String)

/-- Apply one operation, keeping only the successor room (a raised
`ValueError` leaves the room untouched, so errors yield no transition). -/
def applyOp (op : Op) (st : Room) : Except String Room :=
  match op with
  | .add_player pid name => st.add_player pid name
  | .start_game shuffle => st.start_game shuffle
  | .draw_card reshuffle pid => (st.draw_card reshuffle pid).map Prod.fst
  | .attempt_discard pid pos => (st.attempt_discard pid pos).map Prod.fst
  | .replace_card pid pos => st.replace_card pid pos
  | .keep_card pid => st.keep_card pid
  | .use_jack pid tpid pos => (st.use_jack pid tpid pos).map Prod.fst
  | .use_queen pid pa posa pb posb => st.use_queen pid pa posa pb posb
  | .use_king_peek pid tpid pos => (st.use_king_peek pid tpid pos).map Prod.fst
  | .use_king_swap pid opid opos => st.use_king_swap pid opid opos
  | .call_rikiki pid => st.call_rikiki pid

/-- Reachability by successful operations, restricted to steps satisfying
`P` (instantiate `P` with `fun _ _ => True` for unrestricted sequences). -/
inductive Reaches (P : Op → Room → Prop) : Room → Room → Prop where
  | refl (s : Room) : Reaches P s s
  | step {s t t' : Room} {o : Op} : Reaches P s t → P o t →
      applyOp o t = .ok t' → Reaches P s t'

/-- All the cards currently held by the room, place by place: deck, discard
pile, occupied hand slots, and the card owned by the pending action (a
`king_peek`'s `peeked_card` is a *view* of a slot, not ownership). -/
def heldList (st : Room) : List Card :=
  st.deck ++ st.discard_pile ++
    (st.players.flatMap fun p => p.hand.filterMap id) ++
    (match st.pending_special with
     | none => []
     | some (.drawn _ c) => [c]
     | some (.king_peek _ c _ _ _) => [c])

/-! ## Basic lemmas about the auxiliary list operations -/

theorem updatePlayer_map_id {ps : List Player} {pid : String} {f : Player → Player}
    (hf : ∀ p, (f p).id = p.id) :
    (updatePlayer ps pid f).map Player.id = ps.map Player.id := by
  induction ps with
  | nil => rfl
  | cons p rest ih =>
    by_cases h : p.id == pid
    · simp [updatePlayer, h, hf]
    · simp [updatePlayer, h, ih]

theorem updatePlayer_map_connected {ps : List Player} {pid : String} {f : Player → Player}
    (hf : ∀ p, (f p).connected = p.connected) :
    (updatePlayer ps pid f).map Player.connected = ps.map Player.connected := by
  induction ps with
  | nil => rfl
  | cons p rest ih =>
    by_cases h : p.id == pid
    · simp [updatePlayer, h, hf]
    · simp [updatePlayer, h, ih]

theorem updatePlayer_length {ps : List Player} {pid : String} {f : Player → Player} :
    (updatePlayer ps pid f).length = ps.length := by
  induction ps with
  | nil => rfl
  | cons p rest ih =>
    by_cases h : p.id == pid
    · simp [updatePlayer, h]
    · simp [updatePlayer, h, ih]

theorem updatePlayer_get?_id {ps : List Player} {pid : String} {f : Player → Player}
    (hf : ∀ p, (f p).id = p.id) (j : Nat) :
    ((updatePlayer ps pid f).get? j).map Player.id = (ps.get? j).map Player.id := by
  have h := @updatePlayer_map_id ps pid f hf
  have h1 := congrArg (fun l => l.get? j) h
  simpa [List.get?_map] using h1

theorem updatePlayer_get?_connected {ps : List Player} {pid : String} {f : Player → Player}
    (hf : ∀ p, (f p).connected = p.connected) (j : Nat) :
    ((updatePlayer ps pid f).get? j).map Player.connected =
      (ps.get? j).map Player.connected := by
  have h := @updatePlayer_map_connected ps pid f hf
  have h1 := congrArg (fun l => l.get? j) h
  simpa [List.get?_map] using h1

theorem find?_updatePlayer_self {ps : List Player} {pid : String} {f : Player → Player}
    {cp : Player} (hf : ∀ p, (f p).id = p.id)
    (h : ps.find? (fun p => p.id == pid) = some cp) :
    (updatePlayer ps pid f).find? (fun p => p.id == pid) = some (f cp) := by
  induction ps with
  | nil => simp [List.find?] at h
  | cons p rest ih =>
    by_cases hp : (p.id == pid) = true
    · rw [List.find?_cons, ] at h
      simp only [hp] at h
      cases h
      simp only [updatePlayer, hp, if_true]
      have hfp : ((f cp).id == pid) = true := by rw [hf]; exact hp
      rw [List.find?_cons]
      simp only [hfp]
    · simp only [Bool.not_eq_true] at hp
      rw [List.find?_cons] at h
      simp only [hp] at h
      simp only [updatePlayer, hp, Bool.false_eq_true, if_false]
      rw [List.find?_cons]
      simp only [hp]
      exact ih h

theorem nextConnGo_congr {ps qs : List Player}
    (hlen : qs.length = ps.length)
    (hconn : qs.map Player.connected = ps.map Player.connected) :
    ∀ fuel i, nextConnGo qs fuel i = nextConnGo ps fuel i := by
  have hget : ∀ j, (qs.get? j).map Player.connected = (ps.get? j).map Player.connected := by
    intro j
    have h1 := congrArg (fun l => l.get? j) hconn
    simpa [List.get?_map] using h1
  intro fuel
  induction fuel with
  | zero => intro i; rfl
  | succ k ih =>
    intro i
    simp only [nextConnGo, hlen]
    have hj := hget ((i + 1) % ps.length)
    cases hq : qs.get? ((i + 1) % ps.length) with
    | none =>
      rw [hq] at hj
      cases hp : ps.get? ((i + 1) % ps.length) with
      | none => rfl
      | some p => rw [hp] at hj; simp at hj
    | some q =>
      rw [hq] at hj
      cases hp : ps.get? ((i + 1) % ps.length) with
      | none => rw [hp] at hj; simp at hj
      | some p =>
        rw [hp] at hj
        have hpq : q.connected = p.connected := by simpa using hj
        dsimp only
        rw [hpq]
        by_cases hc : p.connected = true
        · rw [hc]; rfl
        · simp only [Bool.not_eq_true] at hc
          rw [hc]
          simp only [Bool.false_eq_true, if_false]
          exact ih _

theorem nextConnectedIndex_congr {ps qs : List Player}
    (hlen : qs.length = ps.length)
    (hconn : qs.map Player.connected = ps.map Player.connected) (i : Nat) :
    nextConnectedIndex qs i = nextConnectedIndex ps i := by
  unfold nextConnectedIndex
  rw [hlen]
  exact nextConnGo_congr hlen hconn _ i

theorem find?_of_get?_nodup {ps : List Player} {pid : String} {cp : Player}
    (hnd : (ps.map Player.id).Nodup) :
    ∀ {m : Nat}, ps.get? m = some cp → cp.id = pid →
      ps.find? (fun p => p.id == pid) = some cp := by
  induction ps with
  | nil => intro m hm _; simp at hm
  | cons p rest ih =>
    intro m hm hid
    cases m with
    | zero =>
      rw [List.get?_cons_zero] at hm
      cases hm
      rw [List.find?_cons]
      simp [hid]
    | succ m =>
      rw [List.get?_cons_succ] at hm
      have hmem : cp ∈ rest := List.get?_mem hm
      have hne : (p.id == pid) = false := by
        by_contra hb
        have hb' : (p.id == pid) = true := by
          cases hx : (p.id == pid) with
          | true => rfl
          | false => exact absurd hx hb
        have hpe : p.id = pid := by simpa using hb'
        simp only [List.map_cons, List.nodup_cons] at hnd
        exact hnd.1 (hpe.trans hid.symm ▸ List.mem_map_of_mem Player.id hmem)
      rw [List.find?_cons]
      simp only [hne]
      have hnd' : (rest.map Player.id).Nodup := by
        simp only [List.map_cons, List.nodup_cons] at hnd
        exact hnd.2
      exact ih hnd' hm hid

theorem findIdx_of_get?_nodup {ps : List Player} {pid : String} {cp : Player}
    (hnd : (ps.map Player.id).Nodup) :
    ∀ {m : Nat}, ps.get? m = some cp → cp.id = pid →
      ps.findIdx (fun p => p.id == pid) = m := by
  induction ps with
  | nil => intro m hm _; simp at hm
  | cons p rest ih =>
    intro m hm hid
    cases m with
    | zero =>
      rw [List.get?_cons_zero] at hm
      cases hm
      rw [List.findIdx_cons]
      have : (cp.id == pid) = true := by simpa using hid
      simp [this]
    | succ m =>
      rw [List.get?_cons_succ] at hm
      have hmem : cp ∈ rest := List.get?_mem hm
      have hne : (p.id == pid) = false := by
        by_contra hb
        have hb' : (p.id == pid) = true := by
          cases hx : (p.id == pid) with
          | true => rfl
          | false => exact absurd hx hb
        have hpe : p.id = pid := by simpa using hb'
        simp only [List.map_cons, List.nodup_cons] at hnd
        exact hnd.1 (hpe.trans hid.symm ▸ List.mem_map_of_mem Player.id hmem)
      rw [List.findIdx_cons]
      have hnd' : (rest.map Player.id).Nodup := by
        simp only [List.map_cons, List.nodup_cons] at hnd
        exact hnd.2
      simp only [hne, cond_false]
      rw [ih hnd' hm hid]

theorem get?_id_inj {ps : List Player} (hnd : (ps.map Player.id).Nodup)
    {j k : Nat} {pj pk : Player} (hj : ps.get? j = some pj) (hk : ps.get? k = some pk)
    (hjk : pj.id = pk.id) : j = k := by
  have hj' : (ps.map Player.id).get? j = some pj.id := by
    rw [List.get?_map, hj]; rfl
  have hk' : (ps.map Player.id).get? k = some pk.id := by
    rw [List.get?_map, hk]; rfl
  have hlen : j < (ps.map Player.id).length := by
    rw [List.length_map]
    exact List.get?_eq_some.mp hj |>.1
  exact List.get?_inj hlen hnd (by rw [hj', hk', hjk])

theorem current_player_eq_some {st : Room} {cp : Player}
    (h : st.current_player = some cp) :
    st.players ≠ [] ∧ st.players.get? (st.turn_index % st.players.length) = some cp := by
  unfold Room.current_player at h
  by_cases he : st.players.isEmpty
  · rw [if_pos he] at h; simp at h
  · rw [if_neg he] at h
    refine ⟨?_, h⟩
    intro hnil
    rw [hnil] at he
    simp at he

/-- Success case of `_validate_turn`: for the current player (with distinct
seat ids) in phase `Playing` or `LastRound`, validation returns that player. -/
theorem validate_turn_ok {st : Room} {pid : String} {cp : Player}
    (hnd : (st.players.map Player.id).Nodup)
    (hstate : st.state = .playing ∨ st.state = .last_round)
    (hcp : st.current_player = some cp) (hid : cp.id = pid) :
    st.validate_turn pid = .ok cp := by
  obtain ⟨-, hget⟩ := current_player_eq_some hcp
  have hfind : st.players.find? (fun p => p.id == pid) = some cp :=
    find?_of_get?_nodup hnd hget hid
  unfold Room.validate_turn
  rw [show st.get_player pid = some cp from hfind]
  have hcond : (st.state != GameState.playing && st.state != GameState.last_round) = false := by
    rcases hstate with h | h <;> rw [h] <;> rfl
  rw [hcond]
  simp only [Bool.false_eq_true, if_false]
  rw [hcp]
  simp [hid]

/-! ## Shape lemmas for turn advancement and the phase coupling invariant -/

theorem eraseStep_frame (st : Room) :
    (st.eraseStep).players = st.players ∧ (st.eraseStep).state = st.state ∧
    (st.eraseStep).turn_index = st.turn_index := by
  unfold Room.eraseStep
  cases h : st.current_player with
  | none => exact ⟨rfl, rfl, rfl⟩
  | some cp =>
    by_cases hc : st.last_round_remaining.contains cp.id
    · simp only [hc, if_true]
      simp
    · simp only [Bool.not_eq_true] at hc
      simp only [hc, Bool.false_eq_true, if_false]
      simp

theorem end_game_fst_state (st : Room) : ((st.end_game).1).state = .ended := rfl

theorem end_game_fst_remaining (st : Room) :
    ((st.end_game).1).last_round_remaining = st.last_round_remaining := rfl

theorem end_game_fst_turn_index (st : Room) :
    ((st.end_game).1).turn_index = st.turn_index := rfl

theorem advance_turn_spec (st : Room) :
    (st.state ≠ .last_round ∧
      st.advance_turn = { st with turn_index := nextConnectedIndex st.players st.turn_index })
    ∨ (st.state = .last_round ∧ (st.eraseStep).last_round_remaining = [] ∧
      st.advance_turn = ((st.eraseStep).end_game).1)
    ∨ (st.state = .last_round ∧ (st.eraseStep).last_round_remaining ≠ [] ∧
      st.advance_turn = { st.eraseStep with
        turn_index := nextConnectedIndex (st.eraseStep).players (st.eraseStep).turn_index }) := by
  unfold Room.advance_turn
  by_cases h : st.state = .last_round
  · rw [if_pos h]
    by_cases he : (st.eraseStep).last_round_remaining.isEmpty = true
    · rw [if_pos he]
      right; left
      exact ⟨h, List.isEmpty_iff.mp he, rfl⟩
    · rw [if_neg he]
      right; right
      refine ⟨h, ?_, rfl⟩
      intro hnil
      exact he (by rw [hnil]; rfl)
  · rw [if_neg h]
    left
    exact ⟨h, rfl⟩

/-- The C7 invariant: `last_round_remaining` is non-empty only in phase
`LastRound`. -/
def RemainingOnlyLastRound (s : Room) : Prop :=
  s.state ≠ .last_round → s.last_round_remaining = []

theorem advance_preserves_inv {st : Room} (h : RemainingOnlyLastRound st) :
    RemainingOnlyLastRound st.advance_turn := by
  rcases advance_turn_spec st with ⟨hne, heq⟩ | ⟨hlr, hnil, heq⟩ | ⟨hlr, hne, heq⟩
  · rw [heq]
    intro h1
    exact h hne
  · rw [heq]
    intro _
    rw [end_game_fst_remaining]
    exact hnil
  · rw [heq]
    intro h1
    exact absurd ((eraseStep_frame st).2.1.trans hlr) h1

/-- What every single successful operation guarantees about the
`Ended`-transition: it happens exactly when `last_round_remaining` empties,
and it does not move `turn_index`. -/
def EndedStepOk (t t' : Room) : Prop :=
  (t'.state = .ended → t.state ≠ .ended →
    t'.last_round_remaining = [] ∧ t'.turn_index = t.turn_index)
  ∧ (t.last_round_remaining ≠ [] → t'.last_round_remaining = [] → t'.state = .ended)

theorem endedStepOk_frame {t t' : Room}
    (hrem : t'.last_round_remaining = t.last_round_remaining)
    (hstate : t'.state = t.state ∨ t'.state = .playing) : EndedStepOk t t' := by
  constructor
  · intro h1 h2
    rcases hstate with h | h
    · exact absurd (h ▸ h1) h2
    · rw [h] at h1; cases h1
  · intro h1 h2
    exact absurd (hrem ▸ h2) h1

theorem endedStepOk_advance {t u : Room}
    (hti : u.turn_index = t.turn_index)
    (hstate : u.state = t.state ∨ u.state = .last_round)
    (hrem : u.last_round_remaining = t.last_round_remaining ∨ u.state = .last_round) :
    EndedStepOk t u.advance_turn := by
  rcases advance_turn_spec u with ⟨hne, heq⟩ | ⟨hlr, hnil, heq⟩ | ⟨hlr, hne, heq⟩
  · rw [heq]
    constructor
    · intro h1 h2
      rcases hstate with h | h
      · exact absurd (h ▸ h1) h2
      · exact absurd (h ▸ h1) (by intro hx; cases hx)
    · intro h1 h2
      rcases hrem with h | h
      · exact absurd ((h.symm.trans h2) ▸ h1) (by simp [h2, h ▸ h2])
      · exact absurd (h ▸ hne) (by intro hx; exact hx rfl)
  · rw [heq]
    constructor
    · intro _ _
      refine ⟨by rw [end_game_fst_remaining]; exact hnil, ?_⟩
      rw [end_game_fst_turn_index]
      rw [(eraseStep_frame u).2.2]
      exact hti
    · intro _ _
      exact end_game_fst_state _
  · rw [heq]
    constructor
    · intro h1 _
      exact absurd (((eraseStep_frame u).2.1.trans hlr) ▸ h1) (by intro hx; cases hx)
    · intro _ h2
      exact absurd h2 hne

/-- A successful operation that ends by advancing the turn: the room fed to
`advance_turn` agrees with the starting room on phase, `last_round_remaining`
and `turn_index`. -/
def AdvShape (t t' : Room) : Prop :=
  ∃ u : Room, u.state = t.state ∧ u.last_round_remaining = t.last_round_remaining ∧
    u.turn_index = t.turn_index ∧ t' = u.advance_turn

/-- A successful operation that leaves phase, `last_round_remaining` and
`turn_index` untouched. -/
def FrameShape (t t' : Room) : Prop :=
  t'.state = t.state ∧ t'.last_round_remaining = t.last_round_remaining ∧
    t'.turn_index = t.turn_index

theorem add_player_shape {st : Room} {pid name : String} {t' : Room}
    (h : st.add_player pid name = .ok t') : FrameShape st t' := by
  unfold Room.add_player at h
  split at h
  · simp at h
  · split at h
    · simp at h
    · split at h
      · injection h with h2
        subst h2
        exact ⟨rfl, rfl, rfl⟩
      · injection h with h2
        subst h2
        exact ⟨rfl, rfl, rfl⟩

theorem start_game_shape {st : Room} {sh : List Card → List Card} {t' : Room}
    (h : st.start_game sh = .ok t') :
    t'.state = .playing ∧ t'.last_round_remaining = st.last_round_remaining := by
  unfold Room.start_game at h
  split at h
  · simp at h
  · injection h with h2
    subst h2
    exact ⟨rfl, rfl⟩

theorem draw_card_shape {st : Room} {rs : List Card → List Card} {pid : String}
    {out : Room × DrawResult} (h : st.draw_card rs pid = .ok out) :
    FrameShape st out.1 := by
  unfold Room.draw_card at h
  split at h
  · simp at h
  · split at h
    · split at h
      · simp at h
      · dsimp only at h
        split at h
        · simp at h
        · injection h with h2
          subst h2
          exact ⟨rfl, rfl, rfl⟩
    · dsimp only at h
      split at h
      · simp at h
      · injection h with h2
        subst h2
        exact ⟨rfl, rfl, rfl⟩

theorem attempt_discard_shape {st : Room} {pid : String} {pos : Nat}
    {out : Room × Bool} (h : st.attempt_discard pid pos = .ok out) :
    FrameShape st out.1 ∨ AdvShape st out.1 := by
  unfold Room.attempt_discard at h
  split at h
  · simp at h
  · split at h
    · split at h
      · simp at h
      · simp at h
      · split at h
        · injection h with h2
          subst h2
          right
          refine ⟨_, ?_, ?_, ?_, rfl⟩ <;> rfl
        · injection h with h2
          subst h2
          left
          exact ⟨rfl, rfl, rfl⟩
    · simp at h

theorem replace_card_shape {st : Room} {pid : String} {pos : Nat} {t' : Room}
    (h : st.replace_card pid pos = .ok t') : AdvShape st t' := by
  unfold Room.replace_card at h
  split at h
  · simp at h
  · split at h
    · split at h
      · simp at h
      · simp at h
      · injection h with h2
        subst h2
        refine ⟨_, ?_, ?_, ?_, rfl⟩ <;> rfl
    · simp at h

theorem keep_card_shape {st : Room} {pid : String} {t' : Room}
    (h : st.keep_card pid = .ok t') : AdvShape st t' := by
  unfold Room.keep_card at h
  split at h
  · simp at h
  · split at h
    · simp only [KEEP_ADDS_TO_HAND, Bool.false_eq_true, if_false] at h
      injection h with h2
      subst h2
      refine ⟨_, ?_, ?_, ?_, rfl⟩ <;> rfl
    · simp at h

theorem use_jack_shape {st : Room} {pid tpid : String} {pos : Nat}
    {out : Room × Option Card} (h : st.use_jack pid tpid pos = .ok out) :
    AdvShape st out.1 := by
  unfold Room.use_jack at h
  split at h
  · simp at h
  · split at h
    · split at h
      · simp at h
      · split at h
        · simp at h
        · split at h
          · simp at h
          · injection h with h2
            subst h2
            refine ⟨_, ?_, ?_, ?_, rfl⟩ <;> rfl
    · simp at h

theorem use_queen_shape {st : Room} {pid pa : String} {posa : Nat} {pb : String}
    {posb : Nat} {t' : Room} (h : st.use_queen pid pa posa pb posb = .ok t') :
    AdvShape st t' := by
  unfold Room.use_queen at h
  split at h
  · simp at h
  · split at h
    · split at h
      · simp at h
      · split at h
        · simp at h
        · split at h
          · split at h
            · simp at h
            · split at h
              · simp at h
              · injection h with h2
                subst h2
                refine ⟨_, ?_, ?_, ?_, rfl⟩ <;> rfl
          · simp at h
    · simp at h

theorem use_king_peek_shape {st : Room} {pid tpid : String} {pos : Nat}
    {out : Room × Option Card} (h : st.use_king_peek pid tpid pos = .ok out) :
    FrameShape st out.1 := by
  unfold Room.use_king_peek at h
  split at h
  · simp at h
  · split at h
    · split at h
      · simp at h
      · split at h
        · simp at h
        · split at h
          · simp at h
          · injection h with h2
            subst h2
            exact ⟨rfl, rfl, rfl⟩
    · simp at h

theorem use_king_swap_shape {st : Room} {pid opid : String} {opos : Nat}
    {t' : Room} (h : st.use_king_swap pid opid opos = .ok t') :
    AdvShape st t' := by
  unfold Room.use_king_swap at h
  split at h
  · simp at h
  · split at h
    · split at h
      · simp at h
      · split at h
        · simp at h
        · split at h
          · simp at h
          · split at h
            · simp at h
            · split at h
              · simp at h
              · split at h
                · simp at h
                · injection h with h2
                  subst h2
                  refine ⟨_, ?_, ?_, ?_, rfl⟩ <;> rfl
    · simp at h

theorem call_rikiki_shape {st : Room} {pid : String} {t' : Room}
    (h : st.call_rikiki pid = .ok t') :
    ∃ u : Room, u.state = .last_round ∧ u.turn_index = st.turn_index ∧
      t' = u.advance_turn := by
  unfold Room.call_rikiki at h
  split at h
  · simp at h
  · split at h
    · simp at h
    · injection h with h2
      subst h2
      refine ⟨_, ?_, ?_, rfl⟩ <;> rfl

theorem map_fst_ok {α : Type} {X : Except String (Room × α)} {t' : Room}
    (h : X.map Prod.fst = .ok t') : ∃ out, X = .ok out ∧ out.1 = t' := by
  cases X with
  | error e => simp [Except.map] at h
  | ok out =>
    refine ⟨out, rfl, ?_⟩
    simpa [Except.map] using h

theorem inv_of_frame {t t' : Room} (hs : FrameShape t t')
    (hI : RemainingOnlyLastRound t) : RemainingOnlyLastRound t' := by
  intro hne
  rw [hs.2.1]
  exact hI (by rw [← hs.1]; exact hne)

theorem inv_of_adv {t t' : Room} (hs : AdvShape t t')
    (hI : RemainingOnlyLastRound t) : RemainingOnlyLastRound t' := by
  obtain ⟨u, h1, h2, h3, h4⟩ := hs
  rw [h4]
  apply advance_preserves_inv
  intro hne
  rw [h2]
  exact hI (by rw [← h1]; exact hne)

theorem endedOk_of_adv {t t' : Room} (hs : AdvShape t t') : EndedStepOk t t' := by
  obtain ⟨u, h1, h2, h3, h4⟩ := hs
  rw [h4]
  exact endedStepOk_advance h3 (Or.inl h1) (Or.inl h2)

/-- Every single successful operation moves to `Ended` exactly when
`last_round_remaining` empties, without moving `turn_index`. -/
theorem step_endedStepOk {op : Op} {t t' : Room} (h : applyOp op t = .ok t') :
    EndedStepOk t t' := by
  cases op with
  | add_player pid name =>
    have hs := add_player_shape h
    exact endedStepOk_frame hs.2.1 (Or.inl hs.1)
  | start_game sh =>
    have hs := start_game_shape h
    exact endedStepOk_frame hs.2 (Or.inr hs.1)
  | draw_card rs pid =>
    obtain ⟨out, hm, hfst⟩ := map_fst_ok h
    have hs := draw_card_shape hm
    rw [hfst] at hs
    exact endedStepOk_frame hs.2.1 (Or.inl hs.1)
  | attempt_discard pid pos =>
    obtain ⟨out, hm, hfst⟩ := map_fst_ok h
    rcases attempt_discard_shape hm with hs | hs
    · rw [hfst] at hs
      exact endedStepOk_frame hs.2.1 (Or.inl hs.1)
    · rw [hfst] at hs
      exact endedOk_of_adv hs
  | replace_card pid pos => exact endedOk_of_adv (replace_card_shape h)
  | keep_card pid => exact endedOk_of_adv (keep_card_shape h)
  | use_jack pid tpid pos =>
    obtain ⟨out, hm, hfst⟩ := map_fst_ok h
    have hs := use_jack_shape hm
    rw [hfst] at hs
    exact endedOk_of_adv hs
  | use_queen pid pa posa pb posb => exact endedOk_of_adv (use_queen_shape h)
  | use_king_peek pid tpid pos =>
    obtain ⟨out, hm, hfst⟩ := map_fst_ok h
    have hs := use_king_peek_shape hm
    rw [hfst] at hs
    exact endedStepOk_frame hs.2.1 (Or.inl hs.1)
  | use_king_swap pid opid opos => exact endedOk_of_adv (use_king_swap_shape h)
  | call_rikiki pid =>
    obtain ⟨u, hlast, hti, heq⟩ := call_rikiki_shape h
    rw [heq]
    exact endedStepOk_advance hti (Or.inr hlast) (Or.inr hlast)

/-- One successful operation preserves the coupling invariant, provided
`start_game` is only invoked from the lobby. -/
theorem step_inv {op : Op} {t t' : Room} (h : applyOp op t = .ok t')
    (hstart : ∀ sh, op = Op.start_game sh → t.state = .lobby)
    (hI : RemainingOnlyLastRound t) : RemainingOnlyLastRound t' := by
  cases op with
  | add_player pid name => exact inv_of_frame (add_player_shape h) hI
  | start_game sh =>
    have ht := hstart sh rfl
    have hs := start_game_shape h
    intro _
    rw [hs.2]
    exact hI (by rw [ht]; intro hx; cases hx)
  | draw_card rs pid =>
    obtain ⟨out, hm, hfst⟩ := map_fst_ok h
    have hs := draw_card_shape hm
    rw [hfst] at hs
    exact inv_of_frame hs hI
  | attempt_discard pid pos =>
    obtain ⟨out, hm, hfst⟩ := map_fst_ok h
    rcases attempt_discard_shape hm with hs | hs
    · rw [hfst] at hs
      exact inv_of_frame hs hI
    · rw [hfst] at hs
      exact inv_of_adv hs hI
  | replace_card pid pos => exact inv_of_adv (replace_card_shape h) hI
  | keep_card pid => exact inv_of_adv (keep_card_shape h) hI
  | use_jack pid tpid pos =>
    obtain ⟨out, hm, hfst⟩ := map_fst_ok h
    have hs := use_jack_shape hm
    rw [hfst] at hs
    exact inv_of_adv hs hI
  | use_queen pid pa posa pb posb => exact inv_of_adv (use_queen_shape h) hI
  | use_king_peek pid tpid pos =>
    obtain ⟨out, hm, hfst⟩ := map_fst_ok h
    have hs := use_king_peek_shape hm
    rw [hfst] at hs
    exact inv_of_frame hs hI
  | use_king_swap pid opid opos => exact inv_of_adv (use_king_swap_shape h) hI
  | call_rikiki pid =>
    obtain ⟨u, hlast, hti, heq⟩ := call_rikiki_shape h
    rw [heq]
    apply advance_preserves_inv
    intro hne
    exact absurd hlast hne

/-- Side condition on operation sequences: `start_game` is only issued while
the room is still in the lobby. -/
def StartOnlyFromLobby (op : Op) (u : Room) : Prop :=
  ∀ sh, op = Op.start_game sh → u.state = .lobby

theorem reaches_inv {s t : Room} (h : Reaches StartOnlyFromLobby s t)
    (h0 : RemainingOnlyLastRound s) : RemainingOnlyLastRound t := by
  induction h with
  | refl => exact h0
  | step hr hp happ ih => exact step_inv happ hp ih

/-! ## Concrete runs used as counterexamples and failing inputs -/

/-- Extract the successor room of a successful operation, with a fallback
for the (never taken) error case. -/
def okR (fallback : Room) : Except String Room → Room
  | .ok r => r
  | .error _ => fallback

def idShuffle : List Card → List Card := fun l => l

def runC7a : Room := okR (initRoom "X") (applyOp (.add_player "p1" "Alice") (initRoom "X"))

def runC7b : Room := okR runC7a (applyOp (.add_player "p2" "Bob") runC7a)

def runC7c : Room := okR runC7b (applyOp (.start_game idShuffle) runC7b)

def runC7d : Room := okR runC7c (applyOp (.call_rikiki "p1") runC7c)

/-- The room after: join p1, join p2, start, p1 calls rikiki, start again
(`start_game` has no phase guard and does not reset `last_round_remaining`). -/
def runC7e : Room := okR runC7d (applyOp (.start_game idShuffle) runC7d)

/-- Claim C7, counterexample to the claim as stated: `runC7e` is reachable
from a fresh room by successful operations (the second `start_game` is issued
during `LastRound`, which the code accepts), its phase is `Playing`, yet
`last_round_remaining` is the non-empty `["p2"]` — so a non-`LastRound` state
with a non-empty `last_round_remaining` is reachable. -/
theorem lastRound_coupling_cex :
    Reaches (fun _ _ => True) (initRoom "X") runC7e
    ∧ runC7e.state = .playing ∧ runC7e.last_round_remaining = ["p2"] := by
  refine ⟨?_, by decide, by decide⟩
  refine Reaches.step (t := runC7d) (o := .start_game idShuffle) ?_ trivial rfl
  refine Reaches.step (t := runC7c) (o := .call_rikiki "p1") ?_ trivial rfl
  refine Reaches.step (t := runC7b) (o := .start_game idShuffle) ?_ trivial rfl
  refine Reaches.step (t := runC7a) (o := .add_player "p2" "Bob") ?_ trivial rfl
  refine Reaches.step (t := initRoom "X") (o := .add_player "p1" "Alice") ?_ trivial rfl
  exact Reaches.refl _

/-- Claim C7 (amended): in every state reachable from a fresh room by
successful operations in which `start_game` is only issued from the lobby,
`last_round_remaining` is non-empty only while the phase is `LastRound`; and
across every single successful operation (restriction not needed there), the
phase transitions to `Ended` exactly when `last_round_remaining` becomes
empty, inside turn advancement, without moving `turn_index` further.  (The
lobby restriction is forced by `lastRound_coupling_cex`: restarting during
`LastRound` leaves a stale non-empty `last_round_remaining` in `Playing`.) -/
theorem lastRound_remaining_phase_coupling (code : String) (s : Room)
    (h : Reaches StartOnlyFromLobby (initRoom code) s) :
    (s.state ≠ .last_round → s.last_round_remaining = [])
    ∧ (∀ (op : Op) (t t' : Room), applyOp op t = .ok t' → t'.state = .ended →
        t.state ≠ .ended → t'.last_round_remaining = [] ∧ t'.turn_index = t.turn_index)
    ∧ (∀ (op : Op) (t t' : Room), applyOp op t = .ok t' → t.last_round_remaining ≠ [] →
        t'.last_round_remaining = [] → t'.state = .ended) := by
  refine ⟨reaches_inv h (fun _ => rfl), ?_, ?_⟩
  · intro op t t' happ h1 h2
    exact (step_endedStepOk happ).1 h1 h2
  · intro op t t' happ h1 h2
    exact (step_endedStepOk happ).2 h1 h2

theorem lastRound_remaining_phase_coupling_witness :
    ((initRoom "W").state ≠ .last_round → (initRoom "W").last_round_remaining = [])
    ∧ (∀ (op : Op) (t t' : Room), applyOp op t = .ok t' → t'.state = .ended →
        t.state ≠ .ended → t'.last_round_remaining = [] ∧ t'.turn_index = t.turn_index)
    ∧ (∀ (op : Op) (t t' : Room), applyOp op t = .ok t' → t.last_round_remaining ≠ [] →
        t'.last_round_remaining = [] → t'.state = .ended) :=
  lastRound_remaining_phase_coupling "W" (initRoom "W") (Reaches.refl _)

/-- Room after: join p1, join p2, start (identity shuffle), p1 draws once.
`pending_special` is `Drawn(5♠)`. -/
def runDraw1 : Room := okR runC7c (applyOp (.draw_card idShuffle "p1") runC7c)

/-- Room after a *second* draw by p1, without resolving the first. -/
def runDraw2 : Room := okR runDraw1 (applyOp (.draw_card idShuffle "p1") runDraw1)

/-- Claim C1 is contradicted by the code: `draw_card` never inspects
`pending_special`.  In `runDraw1` (reachable: join, join, start, draw) the
pending action is `Drawn(5♠)` — not `None` — yet a second `draw_card`
succeeds rather than failing, changes the room, and overwrites the pending
action with `Drawn(4♠)`, orphaning the 5♠. -/
theorem draw_ignores_pending_cex :
    runDraw1.pending_special =
      some (.drawn "p1" { rank := .five, suit := .spades, is_red_king := false })
    ∧ applyOp (.draw_card idShuffle "p1") runDraw1 = .ok runDraw2
    ∧ runDraw2 ≠ runDraw1
    ∧ runDraw2.pending_special =
      some (.drawn "p1" { rank := .four, suit := .spades, is_red_king := false }) := by
  exact ⟨by decide, rfl, by decide, by decide⟩

/-- Claim C2 is contradicted by the code: `runDraw2` is reachable from a
started game (join, join, start, draw, draw — all operations succeed), yet
only 103 of the 104 card instances are held by the deck, the discard pile, a
hand slot or the pending action: the first drawn 5♠ is held by none of them
(its copy count drops from 2 in the full deck to 1 among held cards). -/
theorem card_ownership_cex :
    Reaches (fun _ _ => True) (initRoom "X") runDraw2
    ∧ (heldList runDraw2).length = 103
    ∧ baseDeck.length = 104
    ∧ (heldList runDraw2).count
        { rank := .five, suit := .spades, is_red_king := false } = 1
    ∧ baseDeck.count { rank := .five, suit := .spades, is_red_king := false } = 2 := by
  refine ⟨?_, by decide, by decide, by decide, by decide⟩
  refine Reaches.step (t := runDraw1) (o := .draw_card idShuffle "p1") ?_ trivial rfl
  refine Reaches.step (t := runC7c) (o := .draw_card idShuffle "p1") ?_ trivial rfl
  refine Reaches.step (t := runC7b) (o := .start_game idShuffle) ?_ trivial rfl
  refine Reaches.step (t := runC7a) (o := .add_player "p2" "Bob") ?_ trivial rfl
  refine Reaches.step (t := initRoom "X") (o := .add_player "p1" "Alice") ?_ trivial rfl
  exact Reaches.refl _

/-! ## Claim C8 : add_player -/

/-- A full lobby: eight players seated. -/
def roomFull8 : Room :=
  ["p1", "p2", "p3", "p4", "p5", "p6", "p7", "p8"].foldl
    (fun r pid => okR r (applyOp (.add_player pid pid) r)) (initRoom "F")

/-- Claim C8, counterexample to the claim as stated: `p1` is already seated
in the full lobby `roomFull8`, yet re-joining fails with `Room full` instead
of marking `p1` connected — the seat-count check precedes the reconnect
check. -/
theorem add_player_reconnect_cex :
    (roomFull8.get_player "p1").isSome = true
    ∧ roomFull8.state = .lobby
    ∧ roomFull8.players.length = 8
    ∧ roomFull8.add_player "p1" "Alice" = .error "Room full" :=
  ⟨by decide, by decide, by decide, rfl⟩

/-- The reconnect branch of `add_player`: set `existing.connected = True`
on the first seat carrying the id. -/
def connectUpd (ps : List Player) (pid : String) : List Player :=
  updatePlayer ps pid (fun q => { q with connected := true })

/-- Claim C8 (amended): `add_player` fails with `InvalidState` outside the
lobby; fails with `RoomFull` at eight or more seats (this check precedes the
reconnect path, so re-joining a full room also fails with `RoomFull`); and
for an id already seated in a lobby with fewer than eight seats it marks that
player connected and adds no new seat (same seat count, same id sequence). -/
theorem add_player_spec (st : Room) (pid name : String) :
    (st.state ≠ .lobby → st.add_player pid name = .error "Game already started")
    ∧ (st.state = .lobby → 8 ≤ st.players.length →
        st.add_player pid name = .error "Room full")
    ∧ (∀ p : Player, st.state = .lobby → st.players.length < 8 →
        st.get_player pid = some p →
        st.add_player pid name = .ok { st with players := connectUpd st.players pid }
        ∧ (connectUpd st.players pid).length = st.players.length
        ∧ (connectUpd st.players pid).map Player.id = st.players.map Player.id
        ∧ Room.get_player { st with players := connectUpd st.players pid } pid
            = some { p with connected := true }) := by
  refine ⟨?_, ?_, ?_⟩
  · intro h
    unfold Room.add_player
    have hb : (st.state != GameState.lobby) = true := by
      simp [bne_iff_ne, h]
    rw [hb]
    rfl
  · intro h1 h2
    unfold Room.add_player
    have hb : (st.state != GameState.lobby) = false := by
      simp [h1]
    rw [hb]
    simp only [Bool.false_eq_true, if_false]
    rw [if_pos h2]
  · intro p h1 h2 hp
    have hb : (st.state != GameState.lobby) = false := by
      simp [h1]
    refine ⟨?_, updatePlayer_length, updatePlayer_map_id (fun q => rfl), ?_⟩
    · unfold Room.add_player
      rw [hb]
      simp only [Bool.false_eq_true, if_false]
      rw [if_neg (by omega)]
      rw [hp]
      rfl
    · show (connectUpd st.players pid).find? (fun q => q.id == pid) = _
      unfold connectUpd
      exact find?_updatePlayer_self (fun q => rfl) hp

theorem add_player_spec_witness :
    (connectUpd runC7b.players "p1").length = runC7b.players.length
    ∧ Room.get_player { runC7b with players := connectUpd runC7b.players "p1" } "p1"
      = some { Player.make "p1" "Alice" with connected := true } := by
  have h := (add_player_spec runC7b "p1" "Zoe").2.2 (Player.make "p1" "Alice")
    rfl (by decide) rfl
  exact ⟨h.2.1, h.2.2.2⟩

/-! ## Claim C9 : build_deck -/

/-- Claim C9: for any seeded shuffle (any function of the seed that permutes
its input, as `random.Random(seed).shuffle` does), the built deck is a fixed
sequence — two runs with the same seed agree, here definitionally, because
the embedded `build_deck` is a pure function of the shuffle — of 104 cards,
among which exactly 4 are red Kings (each of value 0) and exactly 4 are
black Kings (each of value 10). -/
theorem build_deck_spec (shuffle : List Card → List Card)
    (hperm : ∀ l : List Card, (shuffle l).Perm l) :
    (build_deck shuffle).map (fun c => (c.rank, c.suit)) =
      (build_deck shuffle).map (fun c => (c.rank, c.suit))
    ∧ (build_deck shuffle).length = 104
    ∧ (build_deck shuffle).countP (fun c => c.is_red_king) = 4
    ∧ (build_deck shuffle).countP (fun c => c.rank == Rank.king && !c.is_red_king) = 4
    ∧ (∀ c ∈ build_deck shuffle, c.is_red_king = true → c.value = 0)
    ∧ (∀ c ∈ build_deck shuffle, c.rank = Rank.king → c.is_red_king = false →
        c.value = 10) := by
  have hp : (build_deck shuffle).Perm baseDeck := hperm baseDeck
  refine ⟨rfl, ?_, ?_, ?_, ?_, ?_⟩
  · rw [hp.length_eq]
    decide
  · rw [hp.countP_eq]
    decide
  · rw [hp.countP_eq]
    decide
  · intro c _ hred
    simp [Card.value, hred]
  · intro c _ hk hnr
    simp [Card.value, hnr, hk]
    rfl

theorem build_deck_spec_witness :
    (build_deck idShuffle).length = 104
    ∧ (build_deck idShuffle).countP (fun c => c.is_red_king) = 4 :=
  ⟨(build_deck_spec idShuffle (fun l => List.Perm.refl l)).2.1,
   (build_deck_spec idShuffle (fun l => List.Perm.refl l)).2.2.1⟩

/-! ## Claim C5 : end_game scoring and winner selection -/

theorem minByScore_eq_none {ps : List Player} (h : minByScore ps = none) :
    ps = [] := by
  cases ps with
  | nil => rfl
  | cons p rest =>
    unfold minByScore at h
    cases hm : minByScore rest with
    | none => rw [hm] at h; simp at h
    | some q =>
      rw [hm] at h
      dsimp only at h
      by_cases hc : q.score < p.score
      · rw [if_pos hc] at h; simp at h
      · rw [if_neg hc] at h; simp at h

/-- Python's `min(..., key=..., default=None)` returns the first element
attaining the minimal score: it is a member, is minimal, and every strictly
earlier element scores strictly more. -/
theorem minByScore_spec {ps : List Player} {p : Player}
    (h : minByScore ps = some p) :
    p ∈ ps ∧ (∀ q ∈ ps, p.score ≤ q.score)
    ∧ ∃ i, ps.get? i = some p ∧
        ∀ j q, j < i → ps.get? j = some q → p.score < q.score := by
  induction ps generalizing p with
  | nil => simp [minByScore] at h
  | cons a rest ih =>
    unfold minByScore at h
    cases hm : minByScore rest with
    | none =>
      rw [hm] at h
      dsimp only at h
      have hnil : rest = [] := minByScore_eq_none hm
      subst hnil
      injection h with h
      subst h
      refine ⟨List.mem_cons_self _ _, ?_, 0, rfl, ?_⟩
      · intro q hq
        rcases List.mem_cons.mp hq with h1 | h1
        · rw [h1]
        · simp at h1
      · intro j q hj _
        exact absurd hj (Nat.not_lt_zero j)
    | some q =>
      rw [hm] at h
      dsimp only at h
      by_cases hc : q.score < a.score
      · rw [if_pos hc] at h
        injection h with h
        subst h
        obtain ⟨hmem, hmin, i, hi, hearly⟩ := ih hm
        refine ⟨List.mem_cons_of_mem _ hmem, ?_, i + 1, by simpa using hi, ?_⟩
        · intro r hr
          rcases List.mem_cons.mp hr with h1 | h1
          · rw [h1]; exact le_of_lt hc
          · exact hmin r h1
        · intro j r hj hr
          cases j with
          | zero =>
            rw [List.get?_cons_zero] at hr
            injection hr with hr
            rw [← hr]
            exact hc
          | succ j =>
            rw [List.get?_cons_succ] at hr
            exact hearly j r (Nat.lt_of_succ_lt_succ hj) hr
      · rw [if_neg hc] at h
        injection h with h
        subst h
        obtain ⟨hmem, hmin, -⟩ := ih hm
        refine ⟨List.mem_cons_self _ _, ?_, 0, rfl, ?_⟩
        · intro r hr
          rcases List.mem_cons.mp hr with h1 | h1
          · rw [h1]
          · exact le_trans (Nat.le_of_not_lt hc) (hmin r h1)
        · intro j r hj _
          exact absurd hj (Nat.not_lt_zero j)

theorem callerPlayer_set_state (st : Room) (g : GameState) :
    Room.callerPlayer { st with state := g } = st.callerPlayer := rfl

/-- Claim C5: `end_game` sets `caller_auto_lose` iff a rikiki caller is
seated and scores strictly more than 7; the winner is the first minimal
scorer among non-callers when the caller auto-loses and among all players
otherwise (with `minByScore` returning the first minimum, i.e. ties broken
by earliest seat, per `minByScore_spec` bundled below); with no players the
winner is `none`. -/
theorem end_game_winner_rule (st : Room) :
    ((st.end_game).2.caller_auto_lose = true ↔
      ∃ c, st.callerPlayer = some c ∧ CALLER_AUTO_LOSE_SCORE < c.score)
    ∧ ((st.end_game).2.caller_auto_lose = true →
        (st.end_game).2.winner_id =
          (minByScore (st.players.filter (fun p => !p.called_rikiki))).map Player.id)
    ∧ ((st.end_game).2.caller_auto_lose = false →
        (st.end_game).2.winner_id = (minByScore st.players).map Player.id)
    ∧ (∀ (ps : List Player) (p : Player), minByScore ps = some p →
        p ∈ ps ∧ (∀ q ∈ ps, p.score ≤ q.score)
        ∧ ∃ i, ps.get? i = some p ∧
            ∀ j q, j < i → ps.get? j = some q → p.score < q.score)
    ∧ (st.players = [] → (st.end_game).2.winner_id = none) := by
  refine ⟨?_, ?_, ?_, fun ps p h => minByScore_spec h, ?_⟩
  · show (match Room.callerPlayer { st with state := .ended } with
      | some c => decide (CALLER_AUTO_LOSE_SCORE < c.score)
      | none => false) = true ↔ _
    rw [callerPlayer_set_state]
    cases hc : st.callerPlayer with
    | none => simp
    | some c => simp
  · intro h
    show ((if (st.end_game).2.caller_auto_lose then
        minByScore ((List.filter (fun p => !p.called_rikiki) st.players))
      else minByScore st.players).map Player.id) = _
    rw [h]
    rfl
  · intro h
    show ((if (st.end_game).2.caller_auto_lose then
        minByScore ((List.filter (fun p => !p.called_rikiki) st.players))
      else minByScore st.players).map Player.id) = _
    rw [h]
    rfl
  · intro h
    show ((if (st.end_game).2.caller_auto_lose then
        minByScore ((List.filter (fun p => !p.called_rikiki) st.players))
      else minByScore st.players).map Player.id) = none
    rw [h]
    by_cases hb : (st.end_game).2.caller_auto_lose
    · rw [if_pos hb]
      rfl
    · rw [if_neg hb]
      rfl

/-- A finished 2-player game: the caller `p1` holds two Tens (score 20),
`p2` holds a Five (score 5). -/
def exEndRoom : Room :=
  { room_code := "E"
    players :=
      [{ id := "p1"
         name := "A"
         hand := [some { rank := .ten, suit := .clubs, is_red_king := false },
                  some { rank := .ten, suit := .hearts, is_red_king := false }, none, none]
         connected := true
         called_rikiki := true
         done_last_turn := true },
       { id := "p2"
         name := "B"
         hand := [some { rank := .five, suit := .clubs, is_red_king := false },
                  none, none, none]
         connected := true
         called_rikiki := false
         done_last_turn := false }]
    deck := []
    discard_pile := []
    state := .last_round
    turn_index := 0
    rikiki_called_by := some "p1"
    last_round_remaining := []
    action_log := []
    pending_special := none }

theorem end_game_winner_rule_witness :
    (exEndRoom.end_game).2.caller_auto_lose = true
    ∧ (exEndRoom.end_game).2.winner_id = some "p2" := by
  have h := end_game_winner_rule exEndRoom
  have hb : (exEndRoom.end_game).2.caller_auto_lose = true := by
    refine h.1.mpr ⟨exEndRoom.players.headD (Player.make "" ""), ?_, ?_⟩
    · decide
    · decide
  refine ⟨hb, ?_⟩
  rw [h.2.1 hb]
  decide

/-! ## Claims C3 and C4 : attempt_discard -/

theorem advance_turn_not_lastround {u : Room} (h : u.state ≠ .last_round) :
    u.advance_turn = { u with turn_index := nextConnectedIndex u.players u.turn_index } := by
  unfold Room.advance_turn
  rw [if_neg h]

/-- Claim C3: in phase `Playing`, when the current player (distinct seat
ids) has `pendingAction = Drawn(c)` and the targeted occupied slot holds a
card of the same rank, `attempt_discard` succeeds: the discard pile grows by
exactly the two cards, the pending action clears, the slot becomes empty
(hand otherwise unchanged), the phase stays `Playing`, the seat ids are
unchanged, and the turn advances exactly once, to the next connected seat
(`nextConnectedIndex`, the scan of `_advance_turn`). -/
theorem attempt_discard_match_spec
    (st : Room) (pid q : String) (c hc : Card) (position : Nat) (cp : Player)
    (hnd : (st.players.map Player.id).Nodup)
    (hstate : st.state = .playing)
    (hcp : st.current_player = some cp)
    (hid : cp.id = pid)
    (hpend : st.pending_special = some (.drawn q c))
    (hslot : cp.hand.get? position = some (some hc))
    (hrank : c.rank = hc.rank) :
    ∃ s', st.attempt_discard pid position = .ok (s', true)
      ∧ s'.discard_pile = st.discard_pile ++ [c, hc]
      ∧ s'.pending_special = none
      ∧ s'.get_player pid = some { cp with hand := cp.hand.set position none }
      ∧ s'.state = .playing
      ∧ s'.turn_index = nextConnectedIndex st.players st.turn_index
      ∧ s'.players.map Player.id = st.players.map Player.id := by
  have hv : st.validate_turn pid = .ok cp := validate_turn_ok hnd (Or.inl hstate) hcp hid
  obtain ⟨-, hget⟩ := current_player_eq_some hcp
  have hfind : st.players.find? (fun p => p.id == pid) = some cp :=
    find?_of_get?_nodup hnd hget hid
  unfold Room.attempt_discard
  rw [hv]
  dsimp only
  rw [hpend]
  dsimp only
  rw [hslot]
  dsimp only
  rw [if_pos hrank]
  refine ⟨_, rfl, ?_, ?_, ?_, ?_, ?_, ?_⟩
  · rw [advance_turn_not_lastround]
    · rfl
    · show st.state ≠ GameState.last_round
      rw [hstate]
      decide
  · rw [advance_turn_not_lastround]
    · rfl
    · show st.state ≠ GameState.last_round
      rw [hstate]
      decide
  · rw [advance_turn_not_lastround]
    · show (updatePlayer st.players pid
          (fun p => { p with hand := p.hand.set position none })).find?
          (fun p => p.id == pid) = _
      exact find?_updatePlayer_self (fun p => rfl) hfind
    · show st.state ≠ GameState.last_round
      rw [hstate]
      decide
  · rw [advance_turn_not_lastround]
    · exact hstate
    · show st.state ≠ GameState.last_round
      rw [hstate]
      decide
  · rw [advance_turn_not_lastround]
    · show nextConnectedIndex (updatePlayer st.players pid
          (fun p => { p with hand := p.hand.set position none })) st.turn_index =
        nextConnectedIndex st.players st.turn_index
      apply nextConnectedIndex_congr
      · exact updatePlayer_length
      · exact updatePlayer_map_connected (fun p => rfl)
    · show st.state ≠ GameState.last_round
      rw [hstate]
      decide
  · rw [advance_turn_not_lastround]
    · show (updatePlayer st.players pid
          (fun p => { p with hand := p.hand.set position none })).map Player.id
          = st.players.map Player.id
      exact updatePlayer_map_id (fun p => rfl)
    · show st.state ≠ GameState.last_round
      rw [hstate]
      decide

def fiveH : Card := { rank := .five, suit := .hearts, is_red_king := false }

def fiveC : Card := { rank := .five, suit := .clubs, is_red_king := false }

def sevenC : Card := { rank := .seven, suit := .clubs, is_red_king := false }

def exP1 : Player :=
  { id := "p1"
    name := "A"
    hand := [some fiveH, none, none, none]
    connected := true
    called_rikiki := false
    done_last_turn := false }

def exP2 : Player :=
  { id := "p2"
    name := "B"
    hand := [some { rank := .nine, suit := .clubs, is_red_king := false }, none, none, none]
    connected := true
    called_rikiki := false
    done_last_turn := false }

/-- A mid-turn room: p1 (current) has drawn the 5♣ and holds the 5♥ at
slot 0. -/
def exDiscardRoom : Room :=
  { room_code := "D"
    players := [exP1, exP2]
    deck := [{ rank := .two, suit := .clubs, is_red_king := false }]
    discard_pile := []
    state := .playing
    turn_index := 0
    rikiki_called_by := none
    last_round_remaining := []
    action_log := []
    pending_special := some (.drawn "p1" fiveC) }

theorem attempt_discard_match_spec_witness :
    ∃ s', exDiscardRoom.attempt_discard "p1" 0 = .ok (s', true)
      ∧ s'.discard_pile = exDiscardRoom.discard_pile ++ [fiveC, fiveH]
      ∧ s'.pending_special = none
      ∧ s'.get_player "p1" = some { exP1 with hand := exP1.hand.set 0 none }
      ∧ s'.state = .playing
      ∧ s'.turn_index = nextConnectedIndex exDiscardRoom.players exDiscardRoom.turn_index
      ∧ s'.players.map Player.id = exDiscardRoom.players.map Player.id :=
  attempt_discard_match_spec exDiscardRoom "p1" "p1" fiveC fiveH 0 exP1
    (by decide) rfl rfl rfl rfl rfl rfl

/-- Claim C4: when the current player holds `pendingAction = Drawn(c)` and
targets an occupied slot of a *different* rank, `attempt_discard` returns
`success = False` and mutates nothing except the action log: the successor
room is the old room with exactly one `discard_fail` log entry appended, so
every hand, the deck, the discard pile, `turn_index`, the phase, the
pending `Drawn` action and the current player are unchanged.  The phase
hypothesis is the full disjunction `_validate_turn` accepts — `Playing` or
`LastRound` — so the mismatch frame covers last-round turns as well (in any
other phase the operation cannot reach the mismatch branch at all). -/
theorem attempt_discard_mismatch_frame
    (st : Room) (pid q : String) (c hc : Card) (position : Nat) (cp : Player)
    (hnd : (st.players.map Player.id).Nodup)
    (hstate : st.state = .playing ∨ st.state = .last_round)
    (hcp : st.current_player = some cp)
    (hid : cp.id = pid)
    (hpend : st.pending_special = some (.drawn q c))
    (hslot : cp.hand.get? position = some (some hc))
    (hrank : c.rank ≠ hc.rank) :
    st.attempt_discard pid position = .ok (st.log pid "discard_fail", false)
    ∧ (st.log pid "discard_fail").players = st.players
    ∧ (st.log pid "discard_fail").deck = st.deck
    ∧ (st.log pid "discard_fail").discard_pile = st.discard_pile
    ∧ (st.log pid "discard_fail").turn_index = st.turn_index
    ∧ (st.log pid "discard_fail").state = st.state
    ∧ (st.log pid "discard_fail").pending_special = some (.drawn q c)
    ∧ (st.log pid "discard_fail").current_player = st.current_player
    ∧ (st.log pid "discard_fail").action_log =
        st.action_log ++ [{ player_id := pid, action := "discard_fail" }] := by
  have hv : st.validate_turn pid = .ok cp := validate_turn_ok hnd hstate hcp hid
  refine ⟨?_, rfl, rfl, rfl, rfl, rfl, hpend, rfl, rfl⟩
  unfold Room.attempt_discard
  rw [hv]
  dsimp only
  rw [hpend]
  dsimp only
  rw [hslot]
  dsimp only
  rw [if_neg hrank]

/-- Same room as `exDiscardRoom` but the drawn card is the 7♣, which does
not match the 5♥ at slot 0. -/
def exDiscardRoom2 : Room :=
  { exDiscardRoom with pending_special := some (.drawn "p1" sevenC) }

theorem attempt_discard_mismatch_frame_witness :
    exDiscardRoom2.attempt_discard "p1" 0 =
      .ok (exDiscardRoom2.log "p1" "discard_fail", false)
    ∧ (exDiscardRoom2.log "p1" "discard_fail").players = exDiscardRoom2.players
    ∧ (exDiscardRoom2.log "p1" "discard_fail").deck = exDiscardRoom2.deck
    ∧ (exDiscardRoom2.log "p1" "discard_fail").discard_pile = exDiscardRoom2.discard_pile
    ∧ (exDiscardRoom2.log "p1" "discard_fail").turn_index = exDiscardRoom2.turn_index
    ∧ (exDiscardRoom2.log "p1" "discard_fail").state = exDiscardRoom2.state
    ∧ (exDiscardRoom2.log "p1" "discard_fail").pending_special = some (.drawn "p1" sevenC)
    ∧ (exDiscardRoom2.log "p1" "discard_fail").current_player = exDiscardRoom2.current_player
    ∧ (exDiscardRoom2.log "p1" "discard_fail").action_log =
        exDiscardRoom2.action_log ++ [{ player_id := "p1", action := "discard_fail" }] :=
  attempt_discard_mismatch_frame exDiscardRoom2 "p1" "p1" sevenC fiveH 0 exP1
    (by decide) (Or.inl rfl) rfl rfl rfl rfl (by decide)

/-! ## Claim C6 : call_rikiki -/

theorem mod_shift_ne {idx k n : Nat} (hidx : idx < n) (hk0 : 0 < k) (hkn : k < n) :
    (idx + k) % n ≠ idx := by
  intro h
  by_cases hlt : idx + k < n
  · rw [Nat.mod_eq_of_lt hlt] at h
    omega
  · have hle : n ≤ idx + k := Nat.le_of_not_lt hlt
    rw [Nat.mod_eq_sub_mod hle] at h
    have hlt2 : idx + k - n < n := by omega
    rw [Nat.mod_eq_of_lt hlt2] at h
    omega

theorem remainingIds_length (ps : List Player) (idx : Nat) :
    (remainingIds ps idx).length = ps.length - 1 := by
  simp [remainingIds]

theorem remainingIds_get? {ps : List Player} (idx : Nat) (hn : 0 < ps.length)
    {i : Nat} (hi : i < ps.length - 1) :
    (remainingIds ps idx).get? i =
      (ps.get? ((idx + i + 1) % ps.length)).map Player.id := by
  unfold remainingIds
  rw [List.get?_map, List.get?_range hi]
  have hj : (idx + i + 1) % ps.length < ps.length := Nat.mod_lt _ hn
  obtain ⟨pj, hpj⟩ : ∃ pj, ps.get? ((idx + i + 1) % ps.length) = some pj := by
    cases hx : ps.get? ((idx + i + 1) % ps.length) with
    | none =>
      rw [List.get?_eq_none] at hx
      omega
    | some pj => exact ⟨pj, rfl⟩
  show some (((ps.get? ((idx + i + 1) % ps.length)).map Player.id).getD "") =
    (ps.get? ((idx + i + 1) % ps.length)).map Player.id
  rw [hpj]
  rfl

theorem pid_notin_remainingIds {ps : List Player} {pid : String} {cp : Player}
    (hnd : (ps.map Player.id).Nodup) {idx : Nat} (hidx : idx < ps.length)
    (hget : ps.get? idx = some cp) (hid : cp.id = pid) :
    pid ∉ remainingIds ps idx := by
  intro hmem
  obtain ⟨i, hi, hgi⟩ := List.mem_map.mp hmem
  rw [List.mem_range] at hi
  have hn : 0 < ps.length := by omega
  have hj : (idx + i + 1) % ps.length < ps.length := Nat.mod_lt _ hn
  obtain ⟨pj, hpj⟩ : ∃ pj, ps.get? ((idx + i + 1) % ps.length) = some pj := by
    cases hx : ps.get? ((idx + i + 1) % ps.length) with
    | none =>
      rw [List.get?_eq_none] at hx
      omega
    | some pj => exact ⟨pj, rfl⟩
  have hpj_id : pj.id = pid := by
    rw [hpj] at hgi
    simpa using hgi
  have heq_idx : (idx + i + 1) % ps.length = idx :=
    get?_id_inj hnd hpj hget (by rw [hpj_id, hid])
  have h2 : (idx + (i + 1)) % ps.length = idx := by
    rw [show idx + (i + 1) = idx + i + 1 by omega]
    exact heq_idx
  exact mod_shift_ne hidx (by omega) (by omega) h2

theorem current_player_map_id {u : Room} {st : Room} {pid : String} {cp : Player}
    (hplayers : u.players.map Player.id = st.players.map Player.id)
    (hti : u.turn_index = st.turn_index)
    (hget : st.players.get? (st.turn_index % st.players.length) = some cp)
    (hid : cp.id = pid) (hne : st.players ≠ []) :
    (u.current_player).map Player.id = some pid := by
  have hlen : u.players.length = st.players.length := by
    have h1 := congrArg List.length hplayers
    simpa using h1
  have hgetu : (u.players.get? (st.turn_index % st.players.length)).map Player.id
      = some pid := by
    have h1 := congrArg (fun l => l.get? (st.turn_index % st.players.length)) hplayers
    simp only [List.get?_map] at h1
    rw [h1, hget]
    simp [hid]
  unfold Room.current_player
  have hUem : u.players.isEmpty = false := by
    cases hxx : u.players.isEmpty with
    | false => rfl
    | true =>
      exfalso
      apply hne
      have h2 := List.isEmpty_iff.mp hxx
      rw [h2] at hlen
      cases hps : st.players with
      | nil => rfl
      | cons a l =>
        rw [hps] at hlen
        simp at hlen
  rw [hUem]
  simp only [Bool.false_eq_true, if_false]
  rw [hti, hlen]
  exact hgetu

/-- Turn advancement in `LastRound` when the current player is not owed a
final turn and the remaining set is non-empty: nothing is erased, the game
does not end, the scan advances the index. -/
theorem advance_turn_lastround_no_erase {u : Room} (pid2 : String)
    (hstate : u.state = .last_round)
    (hcur : (u.current_player).map Player.id = some pid2)
    (hnotin : pid2 ∉ u.last_round_remaining)
    (hne : u.last_round_remaining ≠ []) :
    u.advance_turn = { u with turn_index := nextConnectedIndex u.players u.turn_index } := by
  have herase : u.eraseStep = u := by
    unfold Room.eraseStep
    cases hc : u.current_player with
    | none => rfl
    | some cp2 =>
      rw [hc] at hcur
      have hid2 : cp2.id = pid2 := by simpa using hcur
      have hcont : u.last_round_remaining.contains cp2.id = false := by
        cases hxx : u.last_round_remaining.contains cp2.id with
        | false => rfl
        | true =>
          exfalso
          apply hnotin
          rw [← hid2]
          simpa using hxx
      dsimp only
      rw [hcont]
      simp
  have hem : u.last_round_remaining.isEmpty = false := by
    cases hxx : u.last_round_remaining.isEmpty with
    | false => rfl
    | true => exact absurd (List.isEmpty_iff.mp hxx) hne
  unfold Room.advance_turn
  rw [if_pos hstate]
  dsimp only
  rw [herase, hem]
  simp

/-- Claim C6: in an n-player room (n ≥ 2, distinct seat ids) in phase
`Playing`, `call_rikiki` by the current player P succeeds and: records P as
the rikiki caller, sets P's rikiki flag, switches the phase to `LastRound`,
fills `last_round_remaining` with exactly the n−1 other seats' ids in turn
order starting immediately after P's seat (P itself is never listed), and
advances the turn once, to the next connected seat per the `_advance_turn`
scan (`nextConnectedIndex`). -/
theorem call_rikiki_spec
    (st : Room) (pid : String) (cp : Player)
    (hnd : (st.players.map Player.id).Nodup)
    (hstate : st.state = .playing)
    (hcp : st.current_player = some cp)
    (hid : cp.id = pid)
    (hn : 2 ≤ st.players.length) :
    ∃ s', st.call_rikiki pid = .ok s'
      ∧ s'.rikiki_called_by = some pid
      ∧ (s'.get_player pid).map Player.called_rikiki = some true
      ∧ s'.state = .last_round
      ∧ s'.last_round_remaining.length = st.players.length - 1
      ∧ (∀ i, i < st.players.length - 1 →
          s'.last_round_remaining.get? i =
            (st.players.get?
              ((st.turn_index % st.players.length + i + 1) % st.players.length)).map
              Player.id)
      ∧ pid ∉ s'.last_round_remaining
      ∧ s'.turn_index = nextConnectedIndex st.players st.turn_index := by
  have hv : st.validate_turn pid = .ok cp := validate_turn_ok hnd (Or.inl hstate) hcp hid
  obtain ⟨hne, hget⟩ := current_player_eq_some hcp
  have hnpos : 0 < st.players.length := by omega
  have hidxlt : st.turn_index % st.players.length < st.players.length :=
    Nat.mod_lt _ hnpos
  have hidx : st.players.findIdx (fun p => p.id == pid) =
      st.turn_index % st.players.length := findIdx_of_get?_nodup hnd hget hid
  have hfind : st.players.find? (fun p => p.id == pid) = some cp :=
    find?_of_get?_nodup hnd hget hid
  have hnotin : pid ∉ remainingIds st.players (st.turn_index % st.players.length) :=
    pid_notin_remainingIds hnd hidxlt hget hid
  have hremne : remainingIds st.players (st.turn_index % st.players.length) ≠ [] := by
    intro hx
    have hl := remainingIds_length st.players (st.turn_index % st.players.length)
    rw [hx] at hl
    simp at hl
    omega
  unfold Room.call_rikiki
  rw [hv]
  dsimp only
  rw [if_neg (show ¬(st.state ≠ GameState.playing) from fun hx => hx hstate)]
  rw [hidx]
  refine ⟨_, rfl, ?_⟩
  rw [advance_turn_lastround_no_erase pid rfl ?hcur ?hnotin2 ?hne2]
  case hcur =>
    exact current_player_map_id (updatePlayer_map_id (fun p => rfl)) rfl hget hid hne
  case hnotin2 => exact hnotin
  case hne2 => exact hremne
  refine ⟨rfl, ?_, rfl, ?_, ?_, ?_, ?_⟩
  · show ((updatePlayer st.players pid
      (fun p => { p with called_rikiki := true, done_last_turn := true })).find?
      (fun p => p.id == pid)).map Player.called_rikiki = some true
    rw [find?_updatePlayer_self
      (f := fun p => { p with called_rikiki := true, done_last_turn := true })
      (fun p => rfl) hfind]
    rfl
  · exact remainingIds_length st.players _
  · intro i hi
    exact remainingIds_get? _ hnpos hi
  · exact hnotin
  · show nextConnectedIndex (updatePlayer st.players pid
      (fun p => { p with called_rikiki := true, done_last_turn := true }))
      st.turn_index = nextConnectedIndex st.players st.turn_index
    apply nextConnectedIndex_congr
    · exact updatePlayer_length
    · exact updatePlayer_map_connected (fun p => rfl)

theorem call_rikiki_spec_witness :
    ∃ s', runC7c.call_rikiki "p1" = .ok s'
      ∧ s'.rikiki_called_by = some "p1"
      ∧ (s'.get_player "p1").map Player.called_rikiki = some true
      ∧ s'.state = .last_round
      ∧ s'.last_round_remaining.length = runC7c.players.length - 1
      ∧ (∀ i, i < runC7c.players.length - 1 →
          s'.last_round_remaining.get? i =
            (runC7c.players.get?
              ((runC7c.turn_index % runC7c.players.length + i + 1) %
                runC7c.players.length)).map Player.id)
      ∧ "p1" ∉ s'.last_round_remaining
      ∧ s'.turn_index = nextConnectedIndex runC7c.players runC7c.turn_index :=
  call_rikiki_spec runC7c "p1" (runC7c.players.headD (Player.make "" ""))
    (by decide) (by decide) (by decide) (by decide) (by decide)

/-! ## Claim C10 : Jack peek / King peek on an empty slot -/

/-- Claim C10: with the current player holding a drawn Jack (respectively
King), targeting an existing player and an in-bounds position whose slot is
*empty* succeeds rather than raising `EmptySlot`: the revealed payload is
`none`, no hand is mutated, and the Jack is discarded with the turn
advancing, while the King stores a `KingPeek` whose peeked card is `none`
without advancing the turn. -/
theorem special_on_empty_slot
    (st : Room) (pid q tpid : String) (position : Nat) (cp target : Player)
    (hnd : (st.players.map Player.id).Nodup)
    (hstate : st.state = .playing)
    (hcp : st.current_player = some cp)
    (hid : cp.id = pid)
    (htgt : st.get_player tpid = some target)
    (hslot : target.hand.get? position = some none) :
    (∀ c : Card, st.pending_special = some (.drawn q c) → c.rank = .jack →
      ∃ s', st.use_jack pid tpid position = .ok (s', none)
        ∧ s'.players = st.players
        ∧ s'.discard_pile = st.discard_pile ++ [c]
        ∧ s'.pending_special = none
        ∧ s'.state = .playing
        ∧ s'.turn_index = nextConnectedIndex st.players st.turn_index)
    ∧ (∀ c : Card, st.pending_special = some (.drawn q c) → c.rank = .king →
      ∃ s', st.use_king_peek pid tpid position = .ok (s', none)
        ∧ s'.players = st.players
        ∧ s'.deck = st.deck
        ∧ s'.discard_pile = st.discard_pile
        ∧ s'.pending_special = some (.king_peek pid c tpid position none)
        ∧ s'.state = st.state
        ∧ s'.turn_index = st.turn_index) := by
  have hv : st.validate_turn pid = .ok cp := validate_turn_ok hnd (Or.inl hstate) hcp hid
  constructor
  · intro c hpend hrank
    unfold Room.use_jack
    rw [hv]
    dsimp only
    rw [hpend]
    dsimp only
    rw [if_neg (show ¬(c.rank ≠ Rank.jack) from fun hx => hx hrank)]
    rw [htgt]
    dsimp only
    rw [hslot]
    dsimp only
    refine ⟨_, rfl, ?_, ?_, ?_, ?_, ?_⟩
    · rw [advance_turn_not_lastround]
      · rfl
      · show st.state ≠ GameState.last_round
        rw [hstate]
        decide
    · rw [advance_turn_not_lastround]
      · rfl
      · show st.state ≠ GameState.last_round
        rw [hstate]
        decide
    · rw [advance_turn_not_lastround]
      · rfl
      · show st.state ≠ GameState.last_round
        rw [hstate]
        decide
    · rw [advance_turn_not_lastround]
      · exact hstate
      · show st.state ≠ GameState.last_round
        rw [hstate]
        decide
    · rw [advance_turn_not_lastround]
      · rfl
      · show st.state ≠ GameState.last_round
        rw [hstate]
        decide
  · intro c hpend hrank
    unfold Room.use_king_peek
    rw [hv]
    dsimp only
    rw [hpend]
    dsimp only
    rw [if_neg (show ¬(c.rank ≠ Rank.king) from fun hx => hx hrank)]
    rw [htgt]
    dsimp only
    rw [hslot]
    dsimp only
    exact ⟨_, rfl, rfl, rfl, rfl, rfl, rfl, rfl⟩

def jackC : Card := { rank := .jack, suit := .clubs, is_red_king := false }

/-- Same seating as `exDiscardRoom`, with a drawn Jack pending; `p2`'s slot
`1` is empty. -/
def exJackRoom : Room :=
  { exDiscardRoom with pending_special := some (.drawn "p1" jackC) }

theorem special_on_empty_slot_witness :
    ∃ s', exJackRoom.use_jack "p1" "p2" 1 = .ok (s', none)
      ∧ s'.players = exJackRoom.players
      ∧ s'.discard_pile = exJackRoom.discard_pile ++ [jackC]
      ∧ s'.pending_special = none
      ∧ s'.state = .playing
      ∧ s'.turn_index = nextConnectedIndex exJackRoom.players exJackRoom.turn_index :=
  (special_on_empty_slot exJackRoom "p1" "p1" "p2" 1 exP1 exP2
    (by decide) rfl rfl rfl rfl rfl).1 jackC rfl rfl
